import Mathlib

/- Shallow embedding of src/emutools/tex.py.

Strings model Python str values.  Literal TeX braces inside string literals
are written with the escapes \x7b and \x7d.  Python dict values are modelled
as association lists whose entries keep insertion order, matching the dict
semantics the module relies on for emission order. -/

/-- Association-list lookup, modelling Python dict indexing: the value of the
first entry carrying the requested key. -/
def lookupA {β : Type} : List (String × β) → String → Option β
  | [], _ => none
  | (k, v) :: rest, key => if k = key then some v else lookupA rest key

/-- Right fold concatenation of a list of strings, used to model Python string
accumulation over a loop. -/
def concatAll (l : List String) : String := l.foldr (fun a b => a ++ b) ""

/-- Model of the Python loop writing one line plus a newline per element. -/
def renderLines (lines : List String) : String := concatAll (lines.map (fun l => l ++ "\n"))

/-- Python str.lower restricted to the ASCII range the module uses. -/
def strToLower (s : String) : String := s.map Char.toLower

/-- Python str.replace on character lists: scan left to right replacing each
non-overlapping occurrence of the pattern.  The fuel argument, instantiated
with the length of the scanned list, keeps the recursion structural; every
step consumes at least one character, so the fuel never runs out. -/
def replaceAllFuel : Nat → List Char → List Char → List Char → List Char
  | 0, s, _, _ => s
  | _ + 1, [], _, _ => []
  | fuel + 1, c :: rest, pat, rep =>
    if pat ≠ [] ∧ pat.isPrefixOf (c :: rest) then
      rep ++ replaceAllFuel fuel ((c :: rest).drop pat.length) pat rep
    else
      c :: replaceAllFuel fuel rest pat rep

/-- Python str.replace: every non-overlapping occurrence of pat is replaced. -/
def strReplace (s pat rep : String) : String :=
  String.mk (replaceAllFuel s.data.length s.data pat.data rep.data)

/-- Python str.lstrip with argument zero: drop leading zero characters. -/
def lstripZeros (s : String) : String := String.mk (s.data.dropWhile (fun c => c == '0'))

/-- Substring occurrence test on character lists. -/
def listContainsSub : List Char → List Char → Bool
  | [], pat => pat.isEmpty
  | c :: rest, pat => pat.isPrefixOf (c :: rest) || listContainsSub rest pat

/-- Whether pat occurs as a contiguous substring of s. -/
def strContains (s pat : String) : Bool := listContainsSub s.data pat.data

/-- Whether an Except value is a success. -/
def exceptIsOk {ε α : Type} : Except ε α → Bool
  | .ok _ => true
  | .error _ => false

/- ### The ordinal date formatter (get_tex_formatted_date, tex.py lines 13 to 35) -/

/-- Calendar date as carried by a Python datetime value (date fields only). -/
structure PyDate where
  year : Nat
  month : Nat
  day : Nat
  deriving DecidableEq, Repr

/-- Gregorian leap year rule, as implemented by Python datetime. -/
def isLeapYear (y : Nat) : Bool := (y % 4 == 0) && (y % 100 != 0 || y % 400 == 0)

/-- Days in a month of the Gregorian calendar. -/
def daysInMonth (y m : Nat) : Nat :=
  if m = 2 then (if isLeapYear y then 29 else 28)
  else if m = 4 ∨ m = 6 ∨ m = 9 ∨ m = 11 then 30
  else 31

/-- The dates Python datetime accepts: years 1 to 9999, months 1 to 12, days
within the month. -/
abbrev PyDate.valid (d : PyDate) : Prop :=
  1 ≤ d.year ∧ d.year ≤ 9999 ∧ 1 ≤ d.month ∧ d.month ≤ 12 ∧ 1 ≤ d.day ∧ d.day ≤ daysInMonth d.year d.month

/-- Full English month name, the strftime directive %B. -/
def monthName : Nat → String
  | 1 => "January"
  | 2 => "February"
  | 3 => "March"
  | 4 => "April"
  | 5 => "May"
  | 6 => "June"
  | 7 => "July"
  | 8 => "August"
  | 9 => "September"
  | 10 => "October"
  | 11 => "November"
  | 12 => "December"
  | _ => ""

/-- The strftime directive %d: day of month zero-padded to two digits. -/
def strftimeDay (day : Nat) : String :=
  if day < 10 then "0" ++ Nat.repr day else Nat.repr day

/-- Embedding of get_tex_formatted_date.  The tail comes from strftime with
the format string " of %B %Y": the full month name then the year in decimal. -/
def get_tex_formatted_date (date : PyDate) : String :=
  let date_of_month := lstripZeros (strftimeDay date.day)
  let text_super :=
    if date_of_month = "1" ∨ date_of_month = "21" ∨ date_of_month = "31" then "st"
    else if date_of_month = "2" ∨ date_of_month = "22" then "nd"
    else if date_of_month = "3" ∨ date_of_month = "23" then "rd"
    else "th"
  date_of_month ++ "\\textsuperscript\x7b" ++ text_super ++ "\x7d of " ++
    monthName date.month ++ " " ++ Nat.repr date.year

/-- Ordinal suffix selected by the day number, as the specification states
it: st for 1, 21, 31, nd for 2, 22, rd for 3, 23, th otherwise. -/
def daySuffix (day : Nat) : String :=
  if day = 1 ∨ day = 21 ∨ day = 31 then "st"
  else if day = 2 ∨ day = 22 then "nd"
  else if day = 3 ∨ day = 23 then "rd"
  else "th"

/-- Unfolding of get_tex_formatted_date with its local bindings expanded. -/
theorem gtfd_unfold (d : PyDate) :
    get_tex_formatted_date d =
      lstripZeros (strftimeDay d.day) ++ "\\textsuperscript\x7b" ++
        (if lstripZeros (strftimeDay d.day) = "1" ∨ lstripZeros (strftimeDay d.day) = "21" ∨
            lstripZeros (strftimeDay d.day) = "31" then "st"
         else if lstripZeros (strftimeDay d.day) = "2" ∨ lstripZeros (strftimeDay d.day) = "22" then "nd"
         else if lstripZeros (strftimeDay d.day) = "3" ∨ lstripZeros (strftimeDay d.day) = "23" then "rd"
         else "th") ++ "\x7d of " ++ monthName d.month ++ " " ++ Nat.repr d.year := rfl

/-- Stripping the zero padding of %d leaves the plain decimal day. -/
theorem lstrip_strftimeDay (day : Nat) (h1 : 1 ≤ day) (h2 : day ≤ 31) :
    lstripZeros (strftimeDay day) = Nat.repr day := by
  interval_cases day <;> decide

/-- The string-keyed special-case table of the code agrees with the numeric
suffix rule of the specification on all days of a month. -/
theorem text_super_eq_daySuffix (day : Nat) (h1 : 1 ≤ day) (h2 : day ≤ 31) :
    (if Nat.repr day = "1" ∨ Nat.repr day = "21" ∨ Nat.repr day = "31" then "st"
     else if Nat.repr day = "2" ∨ Nat.repr day = "22" then "nd"
     else if Nat.repr day = "3" ∨ Nat.repr day = "23" then "rd"
     else "th") = daySuffix day := by
  interval_cases day <;> decide

/-- The decimal rendering of a day of month has no leading zero. -/
theorem repr_day_no_leading_zero (day : Nat) (h1 : 1 ≤ day) (h2 : day ≤ 31) :
    (Nat.repr day).data.head? ≠ some '0' := by
  interval_cases day <;> decide

/-- C8: for every valid calendar date, get_tex_formatted_date renders the
day of month with no leading zero, then a superscript ordinal suffix that is
st for days 1, 21, 31, nd for days 2, 22, rd for days 3, 23 and th for every
other day, then the month name and the year. -/
theorem c8_date_format (d : PyDate) (h : d.valid) :
    get_tex_formatted_date d =
      Nat.repr d.day ++ "\\textsuperscript\x7b" ++ daySuffix d.day ++ "\x7d of " ++
        monthName d.month ++ " " ++ Nat.repr d.year
    ∧ (Nat.repr d.day).data.head? ≠ some '0' := by
  obtain ⟨y, m, day⟩ := d
  obtain ⟨-, -, -, -, hd1, hd2⟩ := h
  have h31 : day ≤ 31 := by
    have hdm : daysInMonth y m ≤ 31 := by
      unfold daysInMonth
      split_ifs <;> omega
    exact le_trans hd2 hdm
  refine ⟨?_, repr_day_no_leading_zero day hd1 h31⟩
  rw [gtfd_unfold, lstrip_strftimeDay day hd1 h31, text_super_eq_daySuffix day hd1 h31]

/-- Witness for C8 at 21 March 2024. -/
theorem c8_witness :
    PyDate.valid ⟨2024, 3, 21⟩ ∧
    (get_tex_formatted_date ⟨2024, 3, 21⟩ =
        Nat.repr (21 : Nat) ++ "\\textsuperscript\x7b" ++ daySuffix 21 ++ "\x7d of " ++
          monthName 3 ++ " " ++ Nat.repr (2024 : Nat)
      ∧ (Nat.repr (21 : Nat)).data.head? ≠ some '0') :=
  ⟨by decide, c8_date_format ⟨2024, 3, 21⟩ (by decide)⟩

/- ### The table renderers (get_tex_longtable and get_tex_table, tex.py lines 56 to 101) -/

/-- A pandas dataframe as the module observes it: its number of columns
(shape[1]) and the external tabular-to-markup converter
style.to_latex(column_format=..., hrules=True), modelled as a function from
the column format string to the produced markup. -/
structure DataFrame where
  ncols : Nat
  to_latex : String → String

/-- Embedding of get_tex_longtable: wraps the converter output in a longtable
environment after deleting the inner tabular wrapper tags. -/
def get_tex_longtable (table : DataFrame) (col_format_str caption_str label_str : String) : String :=
  let start_str := "\\begin\x7blongtable\x7d\n"
  let table_text := table.to_latex col_format_str
  let table_text := strReplace table_text "\\begin\x7btabular\x7d" ""
  let table_text := strReplace table_text "\\end\x7btabular\x7d" ""
  let end_str := "\\end\x7blongtable\x7d"
  start_str ++ table_text ++ caption_str ++ label_str ++ end_str

/-- Embedding of get_tex_table: wraps the converter output, unchanged, in a
table environment. -/
def get_tex_table (table : DataFrame) (col_format_str caption_str label_str : String) : String :=
  let start_str := "\\begin\x7btable\x7d\n"
  let table_text := table.to_latex col_format_str
  let end_str := "\\end\x7btable\x7d"
  start_str ++ table_text ++ caption_str ++ label_str ++ end_str

/-- Demonstration dataframe whose converter output carries the usual tabular
wrapper produced by pandas. -/
def tabularDemo : DataFrame :=
  { ncols := 2,
    to_latex := fun _ => "\\begin\x7btabular\x7d\x7bll\x7d\nrow\n\\end\x7btabular\x7d\n" }

/-- C4 counterexample: the single-page block produced by get_tex_table DOES
contain the inner tabular wrapper of the converter output, contradicting the
claim that the non-long-table renderer strips it. -/
theorem c4_counterexample :
    strContains (get_tex_table tabularDemo "l" "CAP" "LAB") "\\begin\x7btabular\x7d" = true ∧
    strContains (get_tex_longtable tabularDemo "l" "CAP" "LAB") "\\begin\x7btabular\x7d" = false := by
  constructor <;> decide

/-- C4 amended: it is long-table mode that strips the inner tabular wrapper
tags from the embedded conversion, while the single-page get_tex_table keeps
the converter output unchanged (it appears verbatim between the table
environment opener and the caption). -/
theorem c4_longtable_strips (table : DataFrame) (col_format_str caption_str label_str : String) :
    (get_tex_table table col_format_str caption_str label_str =
      "\\begin\x7btable\x7d\n" ++ table.to_latex col_format_str ++
        (caption_str ++ (label_str ++ "\\end\x7btable\x7d"))) ∧
    (get_tex_longtable table col_format_str caption_str label_str =
      "\\begin\x7blongtable\x7d\n" ++
        strReplace (strReplace (table.to_latex col_format_str) "\\begin\x7btabular\x7d" "")
          "\\end\x7btabular\x7d" "" ++
        (caption_str ++ (label_str ++ "\\end\x7blongtable\x7d"))) := by
  constructor
  · show _ ++ _ ++ _ ++ _ ++ _ = _
    rw [String.append_assoc, String.append_assoc]
  · show _ ++ _ ++ _ ++ _ ++ _ = _
    rw [String.append_assoc, String.append_assoc]

/- ### The document content store (ConcreteTexDoc, tex.py lines 174 to 360) -/

/-- The subsection map of one section: subsection name to its line list,
entries in insertion order.  The empty string is the section-level slot. -/
abbrev Subsections := List (String × List String)

/-- The content mapping: section name to subsection map, in insertion order. -/
abbrev Content := List (String × Subsections)

/-- Append a line under a key of a subsection map, creating the entry at the
end when the key is absent: Python dict update used by add_line. -/
def updAppend : Subsections → String → String → Subsections
  | [], k, v => [(k, [v])]
  | (k1, vs) :: rest, k, v =>
    if k1 = k then (k1, vs ++ [v]) :: rest
    else (k1, vs) :: updAppend rest k v

/-- Append a line under content[sec][sub], creating missing entries at the
end of their level, as add_line does. -/
def contentAdd : Content → String → String → String → Content
  | [], sec, sub, line => [(sec, [(sub, [line])])]
  | (k1, subs) :: rest, sec, sub, line =>
    if k1 = sec then (k1, updAppend subs sub line) :: rest
    else (k1, subs) :: contentAdd rest sec sub line

/-- Nested lookup content[sec][sub]. -/
def lookup2 (c : Content) (sec sub : String) : Option (List String) :=
  match lookupA c sec with
  | none => none
  | some subs => lookupA subs sub

/-- Whether a section key is present in the content mapping. -/
def hasKey (c : Content) (k : String) : Bool := (lookupA c k).isSome

/-- The reserved section names.  ConcreteTexDoc.__init__ always sets the
standard_sections attribute to this list and nothing ever rebinds it, so the
embedding treats it as a constant. -/
def standard_sections : List String := ["preamble", "endings"]

/-- State of a ConcreteTexDoc object.  The path field abstracts the output
directory; file contents live in the functions modelling save and load. -/
structure ConcreteTexDoc where
  content : Content
  path : String
  doc_name : String
  bib_filename : String
  title : String
  prepared : Bool
  table_of_contents : Bool
  deriving DecidableEq, Repr

/-- ConcreteTexDoc.__init__: empty content, unprepared. -/
def mkDoc (path doc_name title bib_filename : String) (table_of_contents : Bool) : ConcreteTexDoc :=
  { content := [], path := path, doc_name := doc_name, bib_filename := bib_filename,
    title := title, prepared := false, table_of_contents := table_of_contents }

/-- Embedding of ConcreteTexDoc.add_line.  In the source both branches of the
falsy test on subsection store under the same key the branch inspected, so
the net effect is a single nested append under content[sec][subsection]. -/
def ConcreteTexDoc.add_line (doc : ConcreteTexDoc) (line sec subsection : String) : ConcreteTexDoc :=
  { doc with content := contentAdd doc.content sec subsection line }

/-- Embedding of ConcreteTexDoc.prepare_doc: mark the store prepared. -/
def ConcreteTexDoc.prepare_doc (doc : ConcreteTexDoc) : ConcreteTexDoc :=
  { doc with prepared := true }

/-- The non-reserved section keys in insertion order, as the comprehension on
line 250 of the source lists them before sorting. -/
def nonReservedKeys (c : Content) : List String :=
  (c.map Prod.fst).filter (fun s => decide (s ∉ standard_sections))

/-- Python string comparison on character lists: lexicographic by code
point, as Python compares str values. -/
def charListLe : List Char → List Char → Bool
  | [], _ => true
  | _ :: _, [] => false
  | a :: xs, b :: ys =>
    if a.toNat < b.toNat then true
    else if b.toNat < a.toNat then false
    else charListLe xs ys

/-- Python comparison of two strings. -/
def pyStrLe (a b : String) : Bool := charListLe a.data b.data

/-- The order Python sorted sorts strings by, as a relation. -/
def strLeP : String → String → Prop := fun a b => pyStrLe a b = true

instance : DecidableRel strLeP :=
  fun a b => inferInstanceAs (Decidable (pyStrLe a b = true))

theorem charListLe_total (xs : List Char) :
    ∀ ys, charListLe xs ys = true ∨ charListLe ys xs = true := by
  induction xs with
  | nil =>
    intro ys
    left
    rfl
  | cons a xs ih =>
    intro ys
    cases ys with
    | nil =>
      right
      rfl
    | cons b ys =>
      simp only [charListLe]
      rcases Nat.lt_trichotomy a.toNat b.toNat with h | h | h
      · left
        rw [if_pos h]
      · rcases ih ys with h2 | h2
        · left
          rw [if_neg (by omega), if_neg (by omega)]
          exact h2
        · right
          rw [if_neg (by omega), if_neg (by omega)]
          exact h2
      · right
        rw [if_pos h]

theorem charListLe_trans (xs : List Char) :
    ∀ ys zs, charListLe xs ys = true → charListLe ys zs = true → charListLe xs zs = true := by
  induction xs with
  | nil =>
    intro ys zs h1 h2
    rfl
  | cons a xs ih =>
    intro ys zs h1 h2
    cases ys with
    | nil => simp [charListLe] at h1
    | cons b ys =>
      cases zs with
      | nil => simp [charListLe] at h2
      | cons c zs =>
        simp only [charListLe] at h1 h2 ⊢
        rcases Nat.lt_trichotomy a.toNat b.toNat with hab | hab | hab
        · rcases Nat.lt_trichotomy b.toNat c.toNat with hbc | hbc | hbc
          · rw [if_pos (by omega)]
          · rw [if_pos (by omega)]
          · rw [if_neg (by omega), if_pos (by omega)] at h2
            exact absurd h2 (by simp)
        · rw [if_neg (by omega), if_neg (by omega)] at h1
          rcases Nat.lt_trichotomy b.toNat c.toNat with hbc | hbc | hbc
          · rw [if_pos (by omega)]
          · rw [if_neg (by omega), if_neg (by omega)] at h2
            rw [if_neg (by omega), if_neg (by omega)]
            exact ih ys zs h1 h2
          · rw [if_neg (by omega), if_pos (by omega)] at h2
            exact absurd h2 (by simp)
        · rw [if_neg (by omega), if_pos (by omega)] at h1
          exact absurd h1 (by simp)

theorem charListLe_antisymm (xs : List Char) :
    ∀ ys, charListLe xs ys = true → charListLe ys xs = true → xs = ys := by
  induction xs with
  | nil =>
    intro ys h1 h2
    cases ys with
    | nil => rfl
    | cons b ys => simp [charListLe] at h2
  | cons a xs ih =>
    intro ys h1 h2
    cases ys with
    | nil => simp [charListLe] at h1
    | cons b ys =>
      simp only [charListLe] at h1 h2
      rcases Nat.lt_trichotomy a.toNat b.toNat with h | h | h
      · rw [if_neg (by omega), if_pos (by omega)] at h2
        exact absurd h2 (by simp)
      · rw [if_neg (by omega), if_neg (by omega)] at h1
        rw [if_neg (by omega), if_neg (by omega)] at h2
        have hc : a = b := Char.eq_of_val_eq (UInt32.ext (by
          unfold Char.toNat at h
          exact h))
        rw [hc, ih ys h1 h2]
      · rw [if_neg (by omega), if_pos (by omega)] at h1
        exact absurd h1 (by simp)

instance : IsTotal String strLeP := ⟨fun a b => charListLe_total a.data b.data⟩

instance : IsTrans String strLeP :=
  ⟨fun a b c h1 h2 => charListLe_trans a.data b.data c.data h1 h2⟩

instance : IsAntisymm String strLeP :=
  ⟨fun a b h1 h2 => by
    cases a with
    | mk da =>
      cases b with
      | mk db => exact congrArg String.mk (charListLe_antisymm da db h1 h2)⟩

/-- Python sorted on a list of strings: the unique permutation ordered by the
code-point lexicographic order. -/
def sortStr (l : List String) : List String := l.insertionSort strLeP

/-- The subsection heading plus label line followed by the subsection lines,
as the inner loop of emit_doc produces them. -/
def subBlock (sub : String) (lines : List String) : String :=
  "\n\\subsection\x7b" ++ sub ++ "\x7d \\label\x7b" ++ strReplace (strToLower sub) " " "_" ++
    "\x7d\n" ++ renderLines lines

/-- The text emit_doc produces for one non-reserved section from its
subsection map: heading and label, the section-level lines when present,
then every named subsection in insertion order. -/
def secBlockFromSubs (sec : String) (subs : Subsections) : String :=
  "\n\\section\x7b" ++ sec ++ "\x7d \\label\x7b" ++ strReplace (strToLower sec) " " "_" ++
    "\x7d\n" ++
  (match lookupA subs "" with
   | none => ""
   | some ls => renderLines ls) ++
  concatAll (subs.filterMap (fun p => if p.1 = "" then none else some (subBlock p.1 p.2)))

/-- The section loop of emit_doc over the resolved order, skipping reserved
names; a missing section key is the KeyError of Python dict indexing. -/
def renderSections (content : Content) : List String → Except String String
  | [] => .ok ""
  | s :: rest =>
    if s ∈ standard_sections then renderSections content rest
    else
      match lookupA content s with
      | none => .error ("KeyError: " ++ s)
      | some subs =>
        match renderSections content rest with
        | .error e => .error e
        | .ok restText => .ok (secBlockFromSubs s subs ++ restText)

/-- The body assembly of emit_doc on given content and resolved section
order: preamble lines, section blocks, endings lines, with Python KeyError
modelled as an error value and raised in source order. -/
def emitText (content : Content) (order : List String) : Except String String :=
  match lookupA content "preamble" with
  | none => .error "KeyError: preamble"
  | some pre =>
    match lookupA pre "" with
    | none => .error "KeyError: preamble has no section-level lines"
    | some preLines =>
      match renderSections content order with
      | .error e => .error e
      | .ok mid =>
        match lookupA content "endings" with
        | none => .error "KeyError: endings"
        | some ends =>
          match lookupA ends "" with
          | none => .error "KeyError: endings has no section-level lines"
          | some endLines => .ok (renderLines preLines ++ mid ++ renderLines endLines)

/-- Embedding of ConcreteTexDoc.emit_doc, parameterised by the prepare_doc
method so the StandardTexDoc override reuses it.  Faithful to source order:
the section_order validation reads the content before preparation; the
resolved default order reads the keys at iteration time, after preparation
(Python dict views are live).  Success returns the emitted text together
with the state of the store after the call. -/
def emit_core (prep : ConcreteTexDoc → ConcreteTexDoc) (doc : ConcreteTexDoc)
    (section_order : List String) : Except String (String × ConcreteTexDoc) :=
  let content_sections := sortStr (nonReservedKeys doc.content)
  if section_order ≠ [] ∧ sortStr section_order ≠ content_sections then
    .error "Sections requested are not those in the current contents"
  else
    let d2 := if doc.prepared then doc else prep doc
    let order := if section_order ≠ [] then section_order else d2.content.map Prod.fst
    match emitText d2.content order with
    | .error e => .error e
    | .ok t => .ok (t, d2)

/-- ConcreteTexDoc.emit_doc with the base prepare_doc. -/
def ConcreteTexDoc.emit_doc (doc : ConcreteTexDoc) (section_order : List String) :
    Except String (String × ConcreteTexDoc) :=
  emit_core ConcreteTexDoc.prepare_doc doc section_order

/-- The seven lines include_figure adds, in order.  The fig_width argument is
modelled as its rendered decimal text, standing for the Python expression
str(round(fig_width, 2)); float formatting itself is out of scope. -/
def figBlock (title filename filetype fig_path caption fig_width : String) : List String :=
  ["\\begin\x7bfigure\x7d[H]",
   "\\caption\x7b\\textbf\x7b" ++ title ++ "\x7d " ++ caption ++ "\x7d",
   "\\begin\x7badjustbox\x7d\x7bcenter, max width=\\paperwidth\x7d",
   "\\" ++ (if filetype = "jpg" then "includegraphics" else "includesvg") ++
     "[width=" ++ fig_width ++ "\\paperwidth]\x7b./" ++ fig_path ++ "/" ++ filename ++
     "." ++ filetype ++ "\x7d",
   "\\end\x7badjustbox\x7d",
   "\\label\x7b" ++ filename ++ "\x7d",
   "\\end\x7bfigure\x7d\n"]

/-- Embedding of ConcreteTexDoc.include_figure: the filetype dispatch raises
before any mutation, then seven separate add_line calls store the block. -/
def ConcreteTexDoc.include_figure (doc : ConcreteTexDoc)
    (title filename filetype fig_path sec subsection caption fig_width : String) :
    Except String ConcreteTexDoc :=
  if filetype = "jpg" ∨ filetype = "svg" then
    .ok ((figBlock title filename filetype fig_path caption fig_width).foldl
      (fun d l => d.add_line l sec subsection) doc)
  else
    .error "File type for figure not supported yet"

/-- Python round(q, 4) on the exact rational model of the float involved. -/
def round4 (q : Rat) : Rat := (Rat.floor (q * 10000 + 1 / 2) : Rat) / 10000

/-- Decimal-free rendering of the exact rational standing in for a Python
float in the column width request; float repr itself is out of scope. -/
def qRepr (q : Rat) : String :=
  (if q.num < 0 then "-" else "") ++ Nat.repr q.num.natAbs ++
    (if q.den = 1 then "" else "/" ++ Nat.repr q.den)

/-- The column format specifier include_table builds from the splits. -/
def colFormatOf (splits : List Rat) (table_width : Rat) : String :=
  String.intercalate " "
    ((splits.map (fun w => w * table_width)).map
      (fun width => ">\x7b\\raggedright\\arraybackslash\x7dp\x7b" ++ qRepr width ++ "cm\x7d"))

/-- The single line include_table hands to add_line for given splits. -/
def tableLineOf (table : DataFrame) (name title caption : String) (splits : List Rat)
    (table_width : Rat) (longtable : Bool) : String :=
  let col_str := colFormatOf splits table_width
  let label_str := "\\label\x7b" ++ name ++ "\x7d\n"
  let caption_str := "\\caption\x7b\\textbf\x7b" ++ title ++ "\x7d " ++ caption ++ "\x7d\n"
  if longtable then get_tex_longtable table col_str caption_str label_str
  else get_tex_table table col_str caption_str label_str

/-- Embedding of ConcreteTexDoc.include_table.  The Python guard `if not
col_splits` is falsy both for None and for an empty list, so both take the
evenly divided widths; a non-empty list of the wrong length raises before
any mutation. -/
def ConcreteTexDoc.include_table (doc : ConcreteTexDoc) (table : DataFrame)
    (name title sec subsection : String) (col_splits : Option (List Rat))
    (table_width : Rat) (longtable : Bool) (caption : String) :
    Except String ConcreteTexDoc :=
  let n_cols := table.ncols + 1
  let even := List.replicate n_cols (round4 ((1 : Rat) / (n_cols : Rat)))
  match col_splits with
  | none =>
    .ok (doc.add_line (tableLineOf table name title caption even table_width longtable) sec subsection)
  | some [] =>
    .ok (doc.add_line (tableLineOf table name title caption even table_width longtable) sec subsection)
  | some (c :: cs) =>
    if (c :: cs).length ≠ n_cols then
      .error "Wrong number of proportion column splits requested"
    else
      .ok (doc.add_line (tableLineOf table name title caption (c :: cs) table_width longtable) sec subsection)

/-- Sort an association list by key with the code-point order on strings,
keeping each value with its key. -/
def insertPairByKey {β : Type} (p : String × β) : List (String × β) → List (String × β)
  | [] => [p]
  | q :: rest => if pyStrLe p.1 q.1 then p :: q :: rest else q :: insertPairByKey p rest

/-- Insertion sort of an association list by key. -/
def sortByKey {β : Type} : List (String × β) → List (String × β)
  | [] => []
  | p :: rest => insertPairByKey p (sortByKey rest)

/-- Modelled behaviour of the external YAML library the source calls in
save_content (yaml.dump): with its default sort_keys=True the dump writes
every mapping with its keys in sorted order, values unchanged.  The value of
this function is the mapping that the written document denotes. -/
def yamlDump (c : Content) : Content :=
  sortByKey (c.map (fun p => (p.1, sortByKey p.2)))

/-- Embedding of ConcreteTexDoc.save_content: the content mapping denoted by
the YAML document written next to the store. -/
def ConcreteTexDoc.save_content (doc : ConcreteTexDoc) : Content := yamlDump doc.content

/-- Embedding of ConcreteTexDoc.load_content: yaml.load with the full loader
returns the saved mappings in document order, and the store replaces its
content with the result. -/
def ConcreteTexDoc.load_content (doc : ConcreteTexDoc) (saved : Content) : ConcreteTexDoc :=
  { doc with content := saved }

/-- The packages StandardTexDoc.prepare_doc imports without arguments. -/
def standard_packages : List String :=
  ["hyperref", "graphicx", "longtable", "booktabs", "array", "svg", "adjustbox", "float"]

/-- Embedding of StandardTexDoc.prepare_doc: set the prepared flag, then
inject the preamble boilerplate in fixed order and the endings lines. -/
def StandardTexDoc.prepare_doc (d0 : ConcreteTexDoc) : ConcreteTexDoc :=
  let d := { d0 with prepared := true }
  let d := d.add_line "\\documentclass\x7barticle\x7d" "preamble" ""
  let d := standard_packages.foldl
    (fun dd p => dd.add_line ("\\usepackage\x7b" ++ p ++ "\x7d") "preamble" "") d
  let d := d.add_line "\\DeclareUnicodeCharacter\x7b2212\x7d\x7b-\x7d" "preamble" ""
  let d := d.add_line "\\usepackage[sorting=none, style=science]\x7bbiblatex\x7d" "preamble" ""
  let d := d.add_line "\\usepackage[a4paper, total=\x7b15cm, 20cm\x7d]\x7bgeometry\x7d" "preamble" ""
  let d := d.add_line "\\usepackage[labelfont=bf,it]\x7bcaption\x7d" "preamble" ""
  let d := d.add_line ("\\addbibresource\x7b" ++ d0.bib_filename ++ ".bib\x7d") "preamble" ""
  let d := d.add_line ("\\title\x7b" ++ d0.title ++ "\x7d") "preamble" ""
  let d := d.add_line "\\begin\x7bdocument\x7d" "preamble" ""
  let d := d.add_line "\\date\x7b\x7d" "preamble" ""
  let d := d.add_line "\\maketitle" "preamble" ""
  let d := if d0.table_of_contents then d.add_line "\\tableofcontents" "preamble" "" else d
  let d := d.add_line "\\printbibliography" "endings" ""
  d.add_line "\\end\x7bdocument\x7d" "endings" ""

/-- StandardTexDoc.emit_doc: the inherited emission with the overriding
prepare_doc. -/
def StandardTexDoc.emit_doc (doc : ConcreteTexDoc) (section_order : List String) :
    Except String (String × ConcreteTexDoc) :=
  emit_core StandardTexDoc.prepare_doc doc section_order

/- ### Call sequences and the content they build (specification side of C1) -/

/-- One add_line call: the line and its placement. -/
structure Call where
  line : String
  sec : String
  sub : String
  deriving DecidableEq, Repr

/-- Run a sequence of add_line calls against a store. -/
def applyCalls (doc : ConcreteTexDoc) (cs : List Call) : ConcreteTexDoc :=
  cs.foldl (fun d c => d.add_line c.line c.sec c.sub) doc

/-- The content mapping reached from c0 by a sequence of add_line calls. -/
def contentFold (c0 : Content) (cs : List Call) : Content :=
  cs.foldl (fun cc c => contentAdd cc c.sec c.sub c.line) c0

/-- First-occurrence deduplication: the insertion order of the keys. -/
def dedupFirst (l : List String) : List String :=
  l.foldl (fun acc x => if x ∈ acc then acc else acc ++ [x]) []

/-- The lines the call sequence places at a given section and subsection, in
call order and with multiplicity. -/
def linesAt (cs : List Call) (s sb : String) : List String :=
  (cs.filter (fun c => decide (c.sec = s ∧ c.sub = sb))).map Call.line

/-- The sections of the call sequence, in insertion order. -/
def secsOf (cs : List Call) : List String := dedupFirst (cs.map Call.sec)

/-- The subsections that appear under a section, in insertion order. -/
def subsOf (cs : List Call) (s : String) : List String :=
  dedupFirst ((cs.filter (fun c => decide (c.sec = s))).map Call.sub)

/-- The subsection map a call sequence builds for one section. -/
def subsecsOf (cs : List Call) (s : String) : Subsections :=
  (subsOf cs s).map (fun sb => (sb, linesAt cs s sb))

/-- The whole content mapping a call sequence builds, stated directly in
terms of insertion orders and per-slot line lists. -/
def contentOf (cs : List Call) : Content :=
  (secsOf cs).map (fun s => (s, subsecsOf cs s))

/- ### Lemmas about dedupFirst -/

theorem dedupFirst_concat (l : List String) (x : String) :
    dedupFirst (l ++ [x]) =
      if x ∈ dedupFirst l then dedupFirst l else dedupFirst l ++ [x] := by
  unfold dedupFirst
  rw [List.foldl_append]
  rfl

theorem mem_foldl_dedup (l : List String) (acc : List String) (y : String) :
    (y ∈ l.foldl (fun a x => if x ∈ a then a else a ++ [x]) acc) ↔ y ∈ acc ∨ y ∈ l := by
  induction l generalizing acc with
  | nil => simp
  | cons x l ih =>
    simp only [List.foldl_cons]
    by_cases hx : x ∈ acc
    · rw [if_pos hx, ih]
      constructor
      · rintro (h | h)
        · exact Or.inl h
        · exact Or.inr (List.mem_cons_of_mem x h)
      · rintro (h | h)
        · exact Or.inl h
        · rcases List.mem_cons.mp h with h | h
          · exact Or.inl (h ▸ hx)
          · exact Or.inr h
    · rw [if_neg hx, ih]
      simp only [List.mem_append, List.mem_singleton, List.mem_cons]
      tauto

theorem mem_dedupFirst (l : List String) (y : String) :
    y ∈ dedupFirst l ↔ y ∈ l := by
  unfold dedupFirst
  rw [mem_foldl_dedup]
  simp

theorem nodup_foldl_dedup (l : List String) (acc : List String) (h : acc.Nodup) :
    (l.foldl (fun a x => if x ∈ a then a else a ++ [x]) acc).Nodup := by
  induction l generalizing acc with
  | nil => exact h
  | cons x l ih =>
    simp only [List.foldl_cons]
    by_cases hx : x ∈ acc
    · rw [if_pos hx]; exact ih acc h
    · rw [if_neg hx]
      refine ih (acc ++ [x]) ?_
      rw [List.nodup_append]
      refine ⟨h, List.nodup_singleton x, ?_⟩
      intro a ha hax
      rw [List.mem_singleton] at hax
      exact hx (hax ▸ ha)

theorem nodup_dedupFirst (l : List String) : (dedupFirst l).Nodup :=
  nodup_foldl_dedup l [] List.nodup_nil

theorem dedupFirst_singleton (x : String) : dedupFirst [x] = [x] := rfl

/- ### Lemmas about association lists built over a key list -/

theorem lookupA_map_keyed {β : Type} (S : List String) (f : String → β) (k : String) :
    lookupA (S.map (fun s => (s, f s))) k = if k ∈ S then some (f k) else none := by
  induction S with
  | nil => rfl
  | cons a S ih =>
    simp only [List.map_cons, lookupA]
    by_cases hak : a = k
    · subst hak
      simp
    · have hka : ¬ k = a := fun h => hak h.symm
      simp [hak, hka, ih, List.mem_cons]

theorem keys_map_keyed {β : Type} (S : List String) (f : String → β) :
    (S.map (fun s => (s, f s))).map Prod.fst = S := by
  rw [List.map_map]
  exact List.map_id S

theorem updAppend_notMem (M : List (String × List String)) (k v : String)
    (h : k ∉ M.map Prod.fst) :
    updAppend M k v = M ++ [(k, [v])] := by
  induction M with
  | nil => rfl
  | cons p M ih =>
    obtain ⟨k1, vs⟩ := p
    simp only [List.map_cons, List.mem_cons] at h
    push_neg at h
    rw [updAppend, if_neg (fun hh => h.1 hh.symm), ih h.2]
    rfl

theorem updAppend_map_keyed (S : List String) (f : String → List String) (k v : String)
    (hnd : S.Nodup) (hk : k ∈ S) :
    updAppend (S.map (fun s => (s, f s))) k v =
      S.map (fun s => (s, if s = k then f s ++ [v] else f s)) := by
  induction S with
  | nil => cases hk
  | cons a S ih =>
    rcases List.nodup_cons.mp hnd with ⟨ha, hndS⟩
    simp only [List.map_cons, updAppend]
    by_cases hak : a = k
    · subst hak
      rw [if_pos rfl]
      have : S.map (fun s => (s, if s = a then f s ++ [v] else f s)) =
          S.map (fun s => (s, f s)) := by
        apply List.map_congr_left
        intro s hs
        rw [if_neg (by rintro rfl; exact ha hs)]
      rw [this]
      simp
    · rcases List.mem_cons.mp hk with h | h
      · exact absurd h.symm hak
      · rw [if_neg hak, ih hndS h, if_neg hak]

theorem contentAdd_notMem (L : Content) (sec sub line : String)
    (h : sec ∉ L.map Prod.fst) :
    contentAdd L sec sub line = L ++ [(sec, [(sub, [line])])] := by
  induction L with
  | nil => rfl
  | cons p L ih =>
    obtain ⟨k1, subs⟩ := p
    simp only [List.map_cons, List.mem_cons] at h
    push_neg at h
    rw [contentAdd, if_neg (fun hh => h.1 hh.symm), ih h.2]
    rfl

theorem contentAdd_map_keyed (S : List String) (g : String → Subsections)
    (sec sub line : String) (hnd : S.Nodup) (hk : sec ∈ S) :
    contentAdd (S.map (fun s => (s, g s))) sec sub line =
      S.map (fun s => (s, if s = sec then updAppend (g s) sub line else g s)) := by
  induction S with
  | nil => cases hk
  | cons a S ih =>
    rcases List.nodup_cons.mp hnd with ⟨ha, hndS⟩
    simp only [List.map_cons, contentAdd]
    by_cases hak : a = sec
    · subst hak
      rw [if_pos rfl]
      have : S.map (fun s => (s, if s = a then updAppend (g s) sub line else g s)) =
          S.map (fun s => (s, g s)) := by
        apply List.map_congr_left
        intro s hs
        rw [if_neg (by rintro rfl; exact ha hs)]
      rw [this]
      simp
    · rcases List.mem_cons.mp hk with h | h
      · exact absurd h.symm hak
      · rw [if_neg hak, ih hndS h, if_neg hak]

/- ### How one more call changes the specification-side content -/

theorem linesAt_concat (cs : List Call) (c : Call) (s sb : String) :
    linesAt (cs ++ [c]) s sb =
      linesAt cs s sb ++ (if c.sec = s ∧ c.sub = sb then [c.line] else []) := by
  unfold linesAt
  rw [List.filter_append, List.map_append]
  congr 1
  by_cases h : c.sec = s ∧ c.sub = sb
  · simp [List.filter_cons, h]
  · simp [List.filter_cons, h]

theorem secsOf_concat (cs : List Call) (c : Call) :
    secsOf (cs ++ [c]) = if c.sec ∈ secsOf cs then secsOf cs else secsOf cs ++ [c.sec] := by
  unfold secsOf
  rw [List.map_append]
  exact dedupFirst_concat (cs.map Call.sec) c.sec

theorem subsOf_concat_same (cs : List Call) (c : Call) :
    subsOf (cs ++ [c]) c.sec =
      if c.sub ∈ subsOf cs c.sec then subsOf cs c.sec else subsOf cs c.sec ++ [c.sub] := by
  unfold subsOf
  rw [List.filter_append]
  have h1 : List.filter (fun x => decide (x.sec = c.sec)) [c] = [c] := by simp
  rw [h1, List.map_append]
  exact dedupFirst_concat _ c.sub

theorem subsOf_concat_other (cs : List Call) (c : Call) (s : String) (h : c.sec ≠ s) :
    subsOf (cs ++ [c]) s = subsOf cs s := by
  unfold subsOf
  rw [List.filter_append]
  have h1 : List.filter (fun x => decide (x.sec = s)) [c] = [] := by simp [h]
  rw [h1, List.append_nil]

theorem subsOf_of_notMem_sec (cs : List Call) (s : String) (h : s ∉ cs.map Call.sec) :
    subsOf cs s = [] := by
  unfold subsOf
  have h1 : List.filter (fun x => decide (x.sec = s)) cs = [] := by
    rw [List.filter_eq_nil_iff]
    intro a ha
    simp only [decide_eq_true_eq]
    intro hseq
    exact h (hseq ▸ List.mem_map_of_mem Call.sec ha)
  rw [h1]
  rfl

theorem linesAt_of_notMem_sub (cs : List Call) (s sb : String) (h : sb ∉ subsOf cs s) :
    linesAt cs s sb = [] := by
  unfold subsOf at h
  rw [mem_dedupFirst] at h
  unfold linesAt
  have hf : List.filter (fun c => decide (c.sec = s ∧ c.sub = sb)) cs = [] := by
    rw [List.filter_eq_nil_iff]
    intro a ha
    simp only [decide_eq_true_eq, not_and]
    intro hsec hsub
    apply h
    have hmem : a ∈ List.filter (fun c => decide (c.sec = s)) cs :=
      List.mem_filter.mpr ⟨ha, by simp [hsec]⟩
    exact hsub ▸ List.mem_map_of_mem Call.sub hmem
  rw [hf]
  rfl

theorem subsecsOf_concat_other (cs : List Call) (c : Call) (s : String) (h : c.sec ≠ s) :
    subsecsOf (cs ++ [c]) s = subsecsOf cs s := by
  unfold subsecsOf
  rw [subsOf_concat_other cs c s h]
  apply List.map_congr_left
  intro sb hsb
  rw [linesAt_concat]
  rw [if_neg (fun hh => h hh.1), List.append_nil]

theorem subsecsOf_concat_same (cs : List Call) (c : Call) :
    subsecsOf (cs ++ [c]) c.sec = updAppend (subsecsOf cs c.sec) c.sub c.line := by
  by_cases hsub : c.sub ∈ subsOf cs c.sec
  · unfold subsecsOf
    rw [subsOf_concat_same, if_pos hsub]
    rw [updAppend_map_keyed (subsOf cs c.sec) (fun sb => linesAt cs c.sec sb) c.sub c.line
      (nodup_dedupFirst _) hsub]
    apply List.map_congr_left
    intro sb hsb
    rw [linesAt_concat]
    by_cases hsb2 : sb = c.sub
    · subst hsb2
      rw [if_pos ⟨rfl, rfl⟩, if_pos rfl]
    · rw [if_neg (fun hh => hsb2 hh.2.symm), if_neg hsb2, List.append_nil]
  · unfold subsecsOf
    rw [subsOf_concat_same, if_neg hsub]
    have hkeys : c.sub ∉
        ((subsOf cs c.sec).map (fun sb => (sb, linesAt cs c.sec sb))).map Prod.fst := by
      rw [keys_map_keyed]
      exact hsub
    rw [updAppend_notMem _ _ _ hkeys, List.map_append]
    congr 1
    · apply List.map_congr_left
      intro sb hsb
      rw [linesAt_concat]
      rw [if_neg (by rintro ⟨-, rfl⟩; exact hsub hsb), List.append_nil]
    · simp only [List.map_cons, List.map_nil]
      rw [linesAt_concat, linesAt_of_notMem_sub cs c.sec c.sub hsub, if_pos ⟨rfl, rfl⟩]
      rfl

theorem contentOf_concat (cs : List Call) (c : Call) :
    contentOf (cs ++ [c]) = contentAdd (contentOf cs) c.sec c.sub c.line := by
  by_cases hsec : c.sec ∈ secsOf cs
  · unfold contentOf
    rw [secsOf_concat, if_pos hsec]
    rw [contentAdd_map_keyed (secsOf cs) (fun s => subsecsOf cs s) c.sec c.sub c.line
      (nodup_dedupFirst _) hsec]
    apply List.map_congr_left
    intro s hs
    by_cases hsc : s = c.sec
    · subst hsc
      rw [if_pos rfl, subsecsOf_concat_same]
    · rw [if_neg hsc, subsecsOf_concat_other cs c s (fun h => hsc h.symm)]
  · unfold contentOf
    rw [secsOf_concat, if_neg hsec]
    have hkeys : c.sec ∉ ((secsOf cs).map (fun s => (s, subsecsOf cs s))).map Prod.fst := by
      rw [keys_map_keyed]
      exact hsec
    rw [contentAdd_notMem _ _ _ _ hkeys, List.map_append]
    congr 1
    · apply List.map_congr_left
      intro s hs
      rw [subsecsOf_concat_other cs c s (by rintro rfl; exact hsec hs)]
    · simp only [List.map_cons, List.map_nil]
      have h1 : subsOf cs c.sec = [] :=
        subsOf_of_notMem_sec cs c.sec (fun hmem => hsec ((mem_dedupFirst _ _).mpr hmem))
      have hnm : c.sub ∉ subsOf cs c.sec := by
        rw [h1]
        exact List.not_mem_nil c.sub
      unfold subsecsOf
      rw [subsOf_concat_same, if_neg hnm, h1]
      simp only [List.nil_append, List.map_cons, List.map_nil]
      rw [linesAt_concat, linesAt_of_notMem_sub cs c.sec c.sub hnm, if_pos ⟨rfl, rfl⟩]
      rfl

theorem contentFold_nil_eq (cs : List Call) : contentFold [] cs = contentOf cs := by
  induction cs using List.reverseRecOn with
  | nil => rfl
  | append_singleton cs c ih =>
    have hstep : contentFold [] (cs ++ [c]) = contentAdd (contentFold [] cs) c.sec c.sub c.line := by
      unfold contentFold
      rw [List.foldl_append]
      rfl
    rw [hstep, ih, ← contentOf_concat]

theorem applyCalls_eq (d : ConcreteTexDoc) (cs : List Call) :
    applyCalls d cs = { d with content := contentFold d.content cs } := by
  induction cs generalizing d with
  | nil => rfl
  | cons c cs ih =>
    have h1 : applyCalls d (c :: cs) = applyCalls (d.add_line c.line c.sec c.sub) cs := rfl
    rw [h1, ih]
    rfl

/-- The store a call sequence builds from a fresh document: the fields of the
construction with the content the sequence denotes. -/
theorem applyCalls_mkDoc (path doc_name title bib : String) (toc : Bool) (cs : List Call) :
    applyCalls (mkDoc path doc_name title bib toc) cs =
      { mkDoc path doc_name title bib toc with content := contentOf cs } := by
  rw [applyCalls_eq]
  rw [show (mkDoc path doc_name title bib toc).content = [] from rfl]
  rw [contentFold_nil_eq]

/- ### Emission over specification-side content -/

theorem concatAll_cons (a : String) (l : List String) :
    concatAll (a :: l) = a ++ concatAll l := rfl

/-- The section text of the claim, computed from the call list alone: the
heading, the empty-subsection lines in call order, then the named
subsections in insertion order, each with its heading and its lines in call
order. -/
def secRender (cs : List Call) (s : String) : String :=
  "\n\\section\x7b" ++ s ++ "\x7d \\label\x7b" ++ strReplace (strToLower s) " " "_" ++
    "\x7d\n" ++
  renderLines (linesAt cs s "") ++
  concatAll (((subsOf cs s).filter (fun sb => decide (sb ≠ ""))).map
    (fun sb => subBlock sb (linesAt cs s sb)))

/-- The full document text the claim predicts for a call sequence: preamble
lines, the non-reserved sections in insertion order, endings lines. -/
def expectedEmit (cs : List Call) : String :=
  renderLines (linesAt cs "preamble" "") ++
  concatAll (((secsOf cs).filter (fun s => decide (s ∉ standard_sections))).map (secRender cs)) ++
  renderLines (linesAt cs "endings" "")

theorem filterMap_if_ne (S : List String) (g : String → String) :
    S.filterMap (fun sb => if sb = "" then none else some (g sb)) =
      (S.filter (fun sb => decide (sb ≠ ""))).map g := by
  induction S with
  | nil => rfl
  | cons a S ih =>
    by_cases h : a = ""
    · subst h
      simp [List.filterMap_cons, List.filter_cons, ih]
    · simp [List.filterMap_cons, List.filter_cons, h, ih]

theorem secBlock_bridge (cs : List Call) (s : String) :
    secBlockFromSubs s (subsecsOf cs s) = secRender cs s := by
  have hm : (match lookupA (subsecsOf cs s) "" with
      | none => ""
      | some ls => renderLines ls) = renderLines (linesAt cs s "") := by
    rw [show subsecsOf cs s = (subsOf cs s).map (fun sb => (sb, linesAt cs s sb)) from rfl]
    rw [lookupA_map_keyed]
    by_cases h : "" ∈ subsOf cs s
    · rw [if_pos h]
    · rw [if_neg h, linesAt_of_notMem_sub cs s "" h]
      rfl
  have ht : (subsecsOf cs s).filterMap (fun p => if p.1 = "" then none else some (subBlock p.1 p.2)) =
      ((subsOf cs s).filter (fun sb => decide (sb ≠ ""))).map
        (fun sb => subBlock sb (linesAt cs s sb)) := by
    rw [show subsecsOf cs s = (subsOf cs s).map (fun sb => (sb, linesAt cs s sb)) from rfl]
    rw [List.filterMap_map]
    exact filterMap_if_ne (subsOf cs s) (fun sb => subBlock sb (linesAt cs s sb))
  unfold secBlockFromSubs secRender
  rw [hm, ht]

theorem keys_contentOf (cs : List Call) : (contentOf cs).map Prod.fst = secsOf cs := by
  unfold contentOf
  exact keys_map_keyed _ _

theorem renderSections_contentOf (cs : List Call) (os : List String)
    (h : ∀ s ∈ os, s ∈ secsOf cs) :
    renderSections (contentOf cs) os =
      .ok (concatAll ((os.filter (fun s => decide (s ∉ standard_sections))).map (secRender cs))) := by
  induction os with
  | nil => rfl
  | cons s rest ih =>
    have hs : s ∈ secsOf cs := h s (List.mem_cons_self s rest)
    have hrest : ∀ x ∈ rest, x ∈ secsOf cs := fun x hx => h x (List.mem_cons_of_mem s hx)
    by_cases hres : s ∈ standard_sections
    · simp only [renderSections, if_pos hres, ih hrest]
      simp [List.filter_cons, hres]
    · have hlook : lookupA (contentOf cs) s = some (subsecsOf cs s) := by
        unfold contentOf
        rw [lookupA_map_keyed, if_pos hs]
      simp only [renderSections, if_neg hres, hlook, ih hrest]
      rw [secBlock_bridge]
      simp [List.filter_cons, hres, concatAll_cons]

theorem emitText_contentOf (cs : List Call)
    (hpsec : "preamble" ∈ secsOf cs) (hesec : "endings" ∈ secsOf cs)
    (hpsub : "" ∈ subsOf cs "preamble") (hesub : "" ∈ subsOf cs "endings") :
    emitText (contentOf cs) (secsOf cs) = .ok (expectedEmit cs) := by
  have hlookp : lookupA (contentOf cs) "preamble" = some (subsecsOf cs "preamble") := by
    unfold contentOf
    rw [lookupA_map_keyed, if_pos hpsec]
  have hlookp2 : lookupA (subsecsOf cs "preamble") "" = some (linesAt cs "preamble" "") := by
    unfold subsecsOf
    rw [lookupA_map_keyed, if_pos hpsub]
  have hlooke : lookupA (contentOf cs) "endings" = some (subsecsOf cs "endings") := by
    unfold contentOf
    rw [lookupA_map_keyed, if_pos hesec]
  have hlooke2 : lookupA (subsecsOf cs "endings") "" = some (linesAt cs "endings" "") := by
    unfold subsecsOf
    rw [lookupA_map_keyed, if_pos hesub]
  have hrs := renderSections_contentOf cs (secsOf cs) (fun s hs => hs)
  simp only [emitText, hlookp, hlookp2, hlooke, hlooke2, hrs]
  rfl

theorem emit_core_unprepared_nil (prep : ConcreteTexDoc → ConcreteTexDoc)
    (doc : ConcreteTexDoc) (hp : doc.prepared = false) :
    emit_core prep doc [] =
      match emitText (prep doc).content ((prep doc).content.map Prod.fst) with
      | .error e => .error e
      | .ok t => .ok (t, prep doc) := by
  unfold emit_core
  rw [if_neg (by simp)]
  rw [hp]
  simp

/- ### Claim C1 -/

/-- Calls for the C1 counterexample: one line in each reserved section, then
a line under a named subsection of the preamble section. -/
def c1badCalls : List Call :=
  [⟨"p", "preamble", ""⟩, ⟨"e", "endings", ""⟩, ⟨"x", "preamble", "sub"⟩]

/-- C1 counterexample: a store whose content contains the preamble and
endings sections, built by add_line calls, for which emit_doc with empty
section order succeeds yet drops the added line x: lines stored under a
named subsection of a reserved section are never emitted, so emission does
not reproduce every added line. -/
theorem c1_counterexample :
    hasKey (applyCalls (mkDoc "out" "doc" "T" "bib" false) c1badCalls).content "preamble" = true ∧
    hasKey (applyCalls (mkDoc "out" "doc" "T" "bib" false) c1badCalls).content "endings" = true ∧
    ("x" ∈ c1badCalls.map Call.line) ∧
    (ConcreteTexDoc.emit_doc (applyCalls (mkDoc "out" "doc" "T" "bib" false) c1badCalls)
        []).toOption.map Prod.fst = some "p\ne\n" ∧
    strContains "p\ne\n" "x" = false := by
  refine ⟨by decide, by decide, by decide, by decide, by decide⟩

/-- C1 amended: for every store built from a fresh ConcreteTexDoc by a call
sequence that touches the preamble and endings sections and places every
reserved-section line in the empty subsection, emit_doc with empty section
order emits exactly the preamble lines, then each non-reserved section in
insertion order with its empty-subsection lines first (in insertion order)
and each named subsection after it in subsection insertion order, then the
endings lines: every added line appears exactly as often as added and
nothing else appears, as expectedEmit states line by line. -/
theorem c1_emit_reproduces (path doc_name title bib : String) (toc : Bool) (cs : List Call)
    (hpre : "preamble" ∈ cs.map Call.sec) (hend : "endings" ∈ cs.map Call.sec)
    (hres : ∀ c ∈ cs, c.sec ∈ standard_sections → c.sub = "") :
    ConcreteTexDoc.emit_doc (applyCalls (mkDoc path doc_name title bib toc) cs) [] =
      .ok (expectedEmit cs,
        { content := contentOf cs, path := path, doc_name := doc_name, bib_filename := bib,
          title := title, prepared := true, table_of_contents := toc }) := by
  have hpsec : "preamble" ∈ secsOf cs := (mem_dedupFirst _ _).mpr hpre
  have hesec : "endings" ∈ secsOf cs := (mem_dedupFirst _ _).mpr hend
  have hpsub : "" ∈ subsOf cs "preamble" := by
    obtain ⟨c, hc, hcsec⟩ := List.mem_map.mp hpre
    have hsub : c.sub = "" := hres c hc (by rw [hcsec]; decide)
    unfold subsOf
    rw [mem_dedupFirst]
    have hmem : c ∈ List.filter (fun x => decide (x.sec = "preamble")) cs :=
      List.mem_filter.mpr ⟨hc, by simp [hcsec]⟩
    exact hsub ▸ List.mem_map_of_mem Call.sub hmem
  have hesub : "" ∈ subsOf cs "endings" := by
    obtain ⟨c, hc, hcsec⟩ := List.mem_map.mp hend
    have hsub : c.sub = "" := hres c hc (by rw [hcsec]; decide)
    unfold subsOf
    rw [mem_dedupFirst]
    have hmem : c ∈ List.filter (fun x => decide (x.sec = "endings")) cs :=
      List.mem_filter.mpr ⟨hc, by simp [hcsec]⟩
    exact hsub ▸ List.mem_map_of_mem Call.sub hmem
  rw [applyCalls_mkDoc]
  show emit_core ConcreteTexDoc.prepare_doc _ [] = _
  rw [emit_core_unprepared_nil _ _ rfl]
  show (match emitText (contentOf cs) ((contentOf cs).map Prod.fst) with
      | Except.error e => (Except.error e : Except String (String × ConcreteTexDoc))
      | Except.ok t => Except.ok (t,
          { content := contentOf cs, path := path, doc_name := doc_name, bib_filename := bib,
            title := title, prepared := true, table_of_contents := toc })) = _
  rw [keys_contentOf, emitText_contentOf cs hpsec hesec hpsub hesub]

/-- Calls for the C1 witness: reserved lines plus a section with one
section-level line and one named subsection line. -/
def c1demoCalls : List Call :=
  [⟨"pl", "preamble", ""⟩, ⟨"el", "endings", ""⟩,
   ⟨"Hello", "Intro", ""⟩, ⟨"World", "Intro", "Background"⟩]

/-- Witness for the amended C1 on a concrete call sequence. -/
theorem c1_witness :
    ("preamble" ∈ c1demoCalls.map Call.sec) ∧ ("endings" ∈ c1demoCalls.map Call.sec) ∧
    (∀ c ∈ c1demoCalls, c.sec ∈ standard_sections → c.sub = "") ∧
    ConcreteTexDoc.emit_doc (applyCalls (mkDoc "out" "doc" "T" "bib" false) c1demoCalls) [] =
      .ok (expectedEmit c1demoCalls,
        { content := contentOf c1demoCalls, path := "out", doc_name := "doc",
          bib_filename := "bib", title := "T", prepared := true, table_of_contents := false }) :=
  ⟨by decide, by decide, by decide,
    c1_emit_reproduces "out" "doc" "T" "bib" false c1demoCalls (by decide) (by decide) (by decide)⟩

/- ### Claim C2 -/

theorem sortStr_eq_iff_perm (l1 l2 : List String) :
    sortStr l1 = sortStr l2 ↔ l1.Perm l2 := by
  constructor
  · intro h
    have p1 : (sortStr l1).Perm l1 := List.perm_insertionSort _ l1
    have p2 : (sortStr l2).Perm l2 := List.perm_insertionSort _ l2
    exact p1.symm.trans (h.symm ▸ p2)
  · intro h
    refine List.eq_of_perm_of_sorted ?_ (List.sorted_insertionSort _ l1)
      (List.sorted_insertionSort _ l2)
    exact (List.perm_insertionSort _ l1).trans (h.trans (List.perm_insertionSort _ l2).symm)

theorem lookupA_isSome_iff (c : Content) (k : String) :
    (lookupA c k).isSome = true ↔ k ∈ c.map Prod.fst := by
  induction c with
  | nil => simp [lookupA]
  | cons p rest ih =>
    obtain ⟨k1, v⟩ := p
    by_cases h : k1 = k
    · subst h
      simp [lookupA]
    · have hk : ¬ k = k1 := fun hh => h hh.symm
      simp [lookupA, h, hk, ih]

theorem mem_nonReservedKeys (c : Content) (s : String) :
    s ∈ nonReservedKeys c ↔ s ∈ c.map Prod.fst ∧ s ∉ standard_sections := by
  unfold nonReservedKeys
  rw [List.mem_filter]
  simp

/-- Rendering of one stored section, total: empty for a missing key. -/
def secRenderStored (content : Content) (s : String) : String :=
  match lookupA content s with
  | none => ""
  | some subs => secBlockFromSubs s subs

theorem renderSections_of_valid (content : Content) (os : List String)
    (h : ∀ s ∈ os, s ∉ standard_sections ∧ (lookupA content s).isSome) :
    renderSections content os = .ok (concatAll (os.map (secRenderStored content))) := by
  induction os with
  | nil => rfl
  | cons s rest ih =>
    obtain ⟨hres, hsome⟩ := h s (List.mem_cons_self s rest)
    obtain ⟨subs, hsubs⟩ := Option.isSome_iff_exists.mp hsome
    have hsr : secRenderStored content s = secBlockFromSubs s subs := by
      unfold secRenderStored
      rw [hsubs]
    simp only [renderSections, if_neg hres, hsubs,
      ih (fun x hx => h x (List.mem_cons_of_mem s hx))]
    rw [List.map_cons, concatAll_cons, hsr]

theorem emitText_of_lookups (content : Content) (S : List String)
    (preLines endLines : List String)
    (hpre : lookup2 content "preamble" "" = some preLines)
    (hend : lookup2 content "endings" "" = some endLines)
    (hS : ∀ s ∈ S, s ∉ standard_sections ∧ (lookupA content s).isSome) :
    emitText content S =
      .ok (renderLines preLines ++ concatAll (S.map (secRenderStored content)) ++
        renderLines endLines) := by
  unfold lookup2 at hpre hend
  rcases hp1 : lookupA content "preamble" with _ | pre
  · rw [hp1] at hpre
    simp at hpre
  rcases he1 : lookupA content "endings" with _ | ends
  · rw [he1] at hend
    simp at hend
  rw [hp1] at hpre
  rw [he1] at hend
  simp only at hpre hend
  have hrs := renderSections_of_valid content S hS
  simp only [emitText, hp1, hpre, he1, hend, hrs]

/-- C2: for every store and non-empty requested order S, emission emits the
non-reserved sections in exactly the order S when S is an order-insensitive
permutation of the non-reserved section keys (provided the reserved sections
hold their section-level line lists), and otherwise fails with the
validation error before any output or mutation. -/
theorem c2_section_order (doc : ConcreteTexDoc) (S : List String) (hne : S ≠ []) :
    (¬ S.Perm (nonReservedKeys doc.content) →
      doc.emit_doc S = .error "Sections requested are not those in the current contents") ∧
    (S.Perm (nonReservedKeys doc.content) →
      ∀ preLines endLines,
        lookup2 doc.content "preamble" "" = some preLines →
        lookup2 doc.content "endings" "" = some endLines →
        doc.emit_doc S =
          .ok (renderLines preLines ++ concatAll (S.map (secRenderStored doc.content)) ++
              renderLines endLines,
            { doc with prepared := true })) := by
  constructor
  · intro hnp
    simp only [ConcreteTexDoc.emit_doc, emit_core]
    rw [if_pos ⟨hne, fun heq => hnp ((sortStr_eq_iff_perm _ _).mp heq)⟩]
  · intro hp preLines endLines hpre hend
    have hsorteq : sortStr S = sortStr (nonReservedKeys doc.content) :=
      (sortStr_eq_iff_perm _ _).mpr hp
    have hSvalid : ∀ s ∈ S, s ∉ standard_sections ∧ (lookupA doc.content s).isSome := by
      intro s hs
      have hmem : s ∈ nonReservedKeys doc.content := hp.mem_iff.mp hs
      rw [mem_nonReservedKeys] at hmem
      exact ⟨hmem.2, (lookupA_isSome_iff doc.content s).mpr hmem.1⟩
    simp only [ConcreteTexDoc.emit_doc, emit_core]
    rw [if_neg (fun hc => hc.2 hsorteq)]
    rw [if_pos hne]
    by_cases hprep : doc.prepared
    · rw [if_pos hprep]
      have hdoc : doc = ({ doc with prepared := true } : ConcreteTexDoc) := by
        cases doc
        simp_all
      rw [emitText_of_lookups doc.content S preLines endLines hpre hend hSvalid, ← hdoc]
    · rw [if_neg hprep]
      rw [show (ConcreteTexDoc.prepare_doc doc).content = doc.content from rfl]
      rw [emitText_of_lookups doc.content S preLines endLines hpre hend hSvalid]
      rfl

/-- Demonstration store for the C2 witness: non-reserved sections inserted
as b then a. -/
def c2demo : ConcreteTexDoc :=
  ((((mkDoc "out" "doc" "T" "bib" false).add_line "P" "preamble" "").add_line
    "E" "endings" "").add_line "B1" "b" "").add_line "A1" "a" ""

/-- Witness for C2: requesting the order a then b emits in that order. -/
theorem c2_witness :
    ConcreteTexDoc.emit_doc c2demo ["a", "b"] =
      .ok (renderLines ["P"] ++ concatAll (["a", "b"].map (secRenderStored c2demo.content)) ++
          renderLines ["E"],
        { c2demo with prepared := true }) :=
  (c2_section_order c2demo ["a", "b"] (by decide)).2 (by decide) ["P"] ["E"]
    (by decide) (by decide)

/- ### Claims C3 and C6: include_figure -/

theorem lookupA_updAppend_same (m : Subsections) (k v : String) :
    lookupA (updAppend m k v) k = some ((lookupA m k).getD [] ++ [v]) := by
  induction m with
  | nil => simp [updAppend, lookupA]
  | cons p m ih =>
    obtain ⟨k1, vs⟩ := p
    by_cases h : k1 = k
    · subst h
      simp [updAppend, lookupA]
    · simp [updAppend, lookupA, h, ih]

theorem lookup2_cons_ne (k1 : String) (subs : Subsections) (c : Content) (s sb : String)
    (h : ¬ k1 = s) : lookup2 ((k1, subs) :: c) s sb = lookup2 c s sb := by
  have h1 : lookupA ((k1, subs) :: c) s = lookupA c s := by
    simp only [lookupA, if_neg h]
  unfold lookup2
  rw [h1]

theorem lookup2_contentAdd_same (c : Content) (s sb l : String) :
    lookup2 (contentAdd c s sb l) s sb = some ((lookup2 c s sb).getD [] ++ [l]) := by
  induction c with
  | nil => simp [contentAdd, lookup2, lookupA]
  | cons p c ih =>
    obtain ⟨k1, subs⟩ := p
    by_cases h : k1 = s
    · subst h
      simp [contentAdd, lookup2, lookupA, lookupA_updAppend_same]
    · rw [show contentAdd ((k1, subs) :: c) s sb l = (k1, subs) :: contentAdd c s sb l from by
        rw [contentAdd, if_neg h]]
      rw [lookup2_cons_ne k1 subs _ s sb h, lookup2_cons_ne k1 subs c s sb h]
      exact ih

theorem lookup2_addLines (doc : ConcreteTexDoc) (l : String) (ls : List String) (sec sub : String) :
    lookup2 ((l :: ls).foldl (fun d x => d.add_line x sec sub) doc).content sec sub =
      some ((lookup2 doc.content sec sub).getD [] ++ (l :: ls)) := by
  induction ls generalizing doc l with
  | nil =>
    show lookup2 (doc.add_line l sec sub).content sec sub = _
    rw [show (doc.add_line l sec sub).content = contentAdd doc.content sec sub l from rfl]
    rw [lookup2_contentAdd_same]
  | cons l2 ls ih =>
    show lookup2 ((l2 :: ls).foldl _ (doc.add_line l sec sub)).content sec sub = _
    rw [ih (doc.add_line l sec sub) l2]
    rw [show (doc.add_line l sec sub).content = contentAdd doc.content sec sub l from rfl]
    rw [lookup2_contentAdd_same]
    simp

/-- C6: include_figure with filetype jpg or svg succeeds, appending a block
whose label argument is exactly the given filename; any other filetype
raises the validation error, and exceptions-as-values mean the content is
untouched on that path (the source raises before its first add_line). -/
theorem c6_figure_filetype (doc : ConcreteTexDoc)
    (title filename filetype fig_path sec subsection caption fig_width : String) :
    ((filetype = "jpg" ∨ filetype = "svg") →
      (doc.include_figure title filename filetype fig_path sec subsection caption
          fig_width).toOption.bind (fun d => lookup2 d.content sec subsection) =
        some ((lookup2 doc.content sec subsection).getD [] ++
          figBlock title filename filetype fig_path caption fig_width) ∧
      ("\\label\x7b" ++ filename ++ "\x7d") ∈
        figBlock title filename filetype fig_path caption fig_width) ∧
    (filetype ≠ "jpg" → filetype ≠ "svg" →
      doc.include_figure title filename filetype fig_path sec subsection caption fig_width =
        .error "File type for figure not supported yet") := by
  constructor
  · intro hft
    constructor
    · unfold ConcreteTexDoc.include_figure
      rw [if_pos hft]
      have hfb : figBlock title filename filetype fig_path caption fig_width =
          "\\begin\x7bfigure\x7d[H]" ::
          ("\\caption\x7b\\textbf\x7b" ++ title ++ "\x7d " ++ caption ++ "\x7d") ::
          "\\begin\x7badjustbox\x7d\x7bcenter, max width=\\paperwidth\x7d" ::
          ("\\" ++ (if filetype = "jpg" then "includegraphics" else "includesvg") ++
            "[width=" ++ fig_width ++ "\\paperwidth]\x7b./" ++ fig_path ++ "/" ++ filename ++
            "." ++ filetype ++ "\x7d") ::
          "\\end\x7badjustbox\x7d" ::
          ("\\label\x7b" ++ filename ++ "\x7d") ::
          ["\\end\x7bfigure\x7d\n"] := rfl
      rw [hfb]
      exact lookup2_addLines doc _ _ sec subsection
    · unfold figBlock
      simp
  · intro h1 h2
    unfold ConcreteTexDoc.include_figure
    rw [if_neg (fun hor => hor.elim h1 h2)]

/-- Witness for C6 with filetype jpg on a fresh store. -/
theorem c6_witness :
    (ConcreteTexDoc.include_figure (mkDoc "out" "doc" "T" "bib" false) "T1" "figfile" "jpg"
        "figures" "Results" "" "cap" "0.85").toOption.bind
      (fun d => lookup2 d.content "Results" "") =
      some ((lookup2 (mkDoc "out" "doc" "T" "bib" false).content "Results" "").getD [] ++
        figBlock "T1" "figfile" "jpg" "figures" "cap" "0.85") ∧
    ("\\label\x7b" ++ "figfile" ++ "\x7d") ∈ figBlock "T1" "figfile" "jpg" "figures" "cap" "0.85" :=
  (c6_figure_filetype (mkDoc "out" "doc" "T" "bib" false) "T1" "figfile" "jpg" "figures"
    "Results" "" "cap" "0.85").1 (Or.inl rfl)

/-- C3 counterexample: one include_figure call on a fresh store leaves seven
elements in the line sequence at its section and subsection, not one. -/
theorem c3_counterexample :
    ((ConcreteTexDoc.include_figure (mkDoc "out" "doc" "T" "bib" false) "T1" "figfile" "jpg"
        "figures" "Results" "" "cap" "0.85").toOption.bind
      (fun d => (lookup2 d.content "Results" "").map List.length)) = some 7 ∧ (7 : Nat) ≠ 1 :=
  ⟨by decide, by decide⟩

/-- C3 amended: for every supported filetype, include_figure appends the
figure block as seven separate consecutive elements of the line sequence at
content[section][subsection], in order: figure opener, caption, adjustbox
opener, embed command, adjustbox closer, label, figure closer. -/
theorem c3_figure_block_lines (doc : ConcreteTexDoc)
    (title filename filetype fig_path sec subsection caption fig_width : String)
    (h : filetype = "jpg" ∨ filetype = "svg") :
    (doc.include_figure title filename filetype fig_path sec subsection caption
        fig_width).toOption.bind (fun d => lookup2 d.content sec subsection) =
      some ((lookup2 doc.content sec subsection).getD [] ++
        ["\\begin\x7bfigure\x7d[H]",
         "\\caption\x7b\\textbf\x7b" ++ title ++ "\x7d " ++ caption ++ "\x7d",
         "\\begin\x7badjustbox\x7d\x7bcenter, max width=\\paperwidth\x7d",
         "\\" ++ (if filetype = "jpg" then "includegraphics" else "includesvg") ++
           "[width=" ++ fig_width ++ "\\paperwidth]\x7b./" ++ fig_path ++ "/" ++ filename ++
           "." ++ filetype ++ "\x7d",
         "\\end\x7badjustbox\x7d",
         "\\label\x7b" ++ filename ++ "\x7d",
         "\\end\x7bfigure\x7d\n"]) ∧
    (figBlock title filename filetype fig_path caption fig_width).length = 7 := by
  constructor
  · unfold ConcreteTexDoc.include_figure
    rw [if_pos h]
    exact lookup2_addLines doc _ _ sec subsection
  · rfl

/-- Witness for the amended C3 with filetype svg on a fresh store. -/
theorem c3_witness :
    (ConcreteTexDoc.include_figure (mkDoc "o2" "d2" "T2" "b2" false) "T2" "vector" "svg"
        "figures" "Methods" "Sub" "cap2" "0.5").toOption.bind
      (fun d => lookup2 d.content "Methods" "Sub") =
      some ((lookup2 (mkDoc "o2" "d2" "T2" "b2" false).content "Methods" "Sub").getD [] ++
        ["\\begin\x7bfigure\x7d[H]",
         "\\caption\x7b\\textbf\x7b" ++ "T2" ++ "\x7d " ++ "cap2" ++ "\x7d",
         "\\begin\x7badjustbox\x7d\x7bcenter, max width=\\paperwidth\x7d",
         "\\" ++ (if ("svg" : String) = "jpg" then "includegraphics" else "includesvg") ++
           "[width=" ++ "0.5" ++ "\\paperwidth]\x7b./" ++ "figures" ++ "/" ++ "vector" ++
           "." ++ "svg" ++ "\x7d",
         "\\end\x7badjustbox\x7d",
         "\\label\x7b" ++ "vector" ++ "\x7d",
         "\\end\x7bfigure\x7d\n"]) ∧
    (figBlock "T2" "vector" "svg" "figures" "cap2" "0.5").length = 7 :=
  c3_figure_block_lines (mkDoc "o2" "d2" "T2" "b2" false) "T2" "vector" "svg" "figures"
    "Methods" "Sub" "cap2" "0.5" (Or.inr rfl)

/- ### Claim C5: include_table column splits -/

/-- Demonstration dataframe with two data columns for the C5 counterexample. -/
def tblDemo : DataFrame := { ncols := 2, to_latex := fun c => "CONV[" ++ c ++ "]" }

/-- C5 counterexample: an empty caller-supplied col_splits list has the wrong
length (0, not columns+1 = 3) yet the call succeeds, because the Python guard
treats an empty list as falsy, the same as passing nothing. -/
theorem c5_counterexample :
    (([] : List Rat).length ≠ tblDemo.ncols + 1) ∧
    exceptIsOk (ConcreteTexDoc.include_table (mkDoc "out" "doc" "T" "bib" false) tblDemo
      "tab" "Title" "Results" "" (some []) 14 false "") = true :=
  ⟨by decide, rfl⟩

/-- C5 amended: a NON-EMPTY caller-supplied col_splits of length other than
columns+1 fails with the validation error and, exceptions being values, the
content is untouched (the source raises before its add_line); length exactly
columns+1 succeeds using those splits; passing no col_splits, or the empty
list (falsy in Python, treated as not supplied), divides the width evenly
across columns+1 slots. -/
theorem c5_col_splits (doc : ConcreteTexDoc) (table : DataFrame)
    (name title sec subsection caption : String) (table_width : Rat) (longtable : Bool)
    (cs : List Rat) :
    (cs ≠ [] → cs.length ≠ table.ncols + 1 →
      doc.include_table table name title sec subsection (some cs) table_width longtable caption =
        .error "Wrong number of proportion column splits requested") ∧
    (cs.length = table.ncols + 1 →
      doc.include_table table name title sec subsection (some cs) table_width longtable caption =
        .ok (doc.add_line (tableLineOf table name title caption cs table_width longtable)
          sec subsection)) ∧
    (doc.include_table table name title sec subsection none table_width longtable caption =
      .ok (doc.add_line
        (tableLineOf table name title caption
          (List.replicate (table.ncols + 1) (round4 ((1 : Rat) / ((table.ncols + 1 : Nat) : Rat))))
          table_width longtable) sec subsection)) ∧
    (doc.include_table table name title sec subsection (some []) table_width longtable caption =
      .ok (doc.add_line
        (tableLineOf table name title caption
          (List.replicate (table.ncols + 1) (round4 ((1 : Rat) / ((table.ncols + 1 : Nat) : Rat))))
          table_width longtable) sec subsection)) := by
  refine ⟨?_, ?_, rfl, rfl⟩
  · intro hne hlen
    cases cs with
    | nil => exact absurd rfl hne
    | cons c cs =>
      simp only [ConcreteTexDoc.include_table]
      rw [if_pos hlen]
  · intro hlen
    cases cs with
    | nil =>
      rw [List.length_nil] at hlen
      omega
    | cons c cs =>
      simp only [ConcreteTexDoc.include_table]
      rw [if_neg (fun hc => hc hlen)]

/-- Second demonstration dataframe for the C5 witness. -/
def tblDemo2 : DataFrame := { ncols := 2, to_latex := fun _ => "X" }

/-- Witness for C5: two splits offered where three are needed fails. -/
theorem c5_witness :
    ConcreteTexDoc.include_table (mkDoc "o" "d" "T" "b" false) tblDemo2 "tab" "Title" "s" ""
      (some [1, 2]) 14 false "" = .error "Wrong number of proportion column splits requested" :=
  (c5_col_splits (mkDoc "o" "d" "T" "b" false) tblDemo2 "tab" "Title" "s" "" "" 14 false
    [1, 2]).1 (by decide) (by decide)

/- ### Claim C7: preparation and the reserved sections -/

theorem emitText_ok_hasKeys (c : Content) (os : List String) (t : String)
    (h : emitText c os = .ok t) :
    hasKey c "preamble" = true ∧ hasKey c "endings" = true := by
  unfold emitText at h
  rcases h1 : lookupA c "preamble" with _ | pre
  · simp [h1] at h
  simp only [h1] at h
  rcases h2 : lookupA pre "" with _ | preLines
  · simp [h2] at h
  simp only [h2] at h
  rcases h3 : renderSections c os with e | mid
  · simp [h3] at h
  simp only [h3] at h
  rcases h4 : lookupA c "endings" with _ | ends
  · simp [h4] at h
  constructor <;> simp [hasKey, h1, h4]

/-- C7: whenever the store is unprepared (and the requested order passes the
validation that the source checks first), emit_doc is exactly the emission
from the content after prepare_doc has run, with prepare_doc applied to the
returned store; and whenever the preamble or endings section is absent from
the content mapping (which preparation of the base class leaves unchanged),
emit_doc does not succeed. -/
theorem c7_prepare_and_reserved (doc : ConcreteTexDoc) (so : List String) :
    (doc.prepared = false →
      (so = [] ∨ sortStr so = sortStr (nonReservedKeys doc.content)) →
      doc.emit_doc so =
        (emitText doc.prepare_doc.content
          (if so ≠ [] then so else doc.prepare_doc.content.map Prod.fst)).map
          (fun t => (t, doc.prepare_doc))) ∧
    ((hasKey doc.content "preamble" = false ∨ hasKey doc.content "endings" = false) →
      exceptIsOk (doc.emit_doc so) = false) := by
  constructor
  · intro hp hv
    simp only [ConcreteTexDoc.emit_doc, emit_core]
    rw [if_neg (by
      rcases hv with h | h
      · simp [h]
      · intro hc
        exact hc.2 h)]
    rw [hp]
    simp only [Bool.false_eq_true, if_false]
    rcases hET : emitText doc.prepare_doc.content
        (if so ≠ [] then so else doc.prepare_doc.content.map Prod.fst) with e | t
    · simp [Except.map]
    · simp [Except.map]
  · intro hmiss
    simp only [ConcreteTexDoc.emit_doc, emit_core]
    by_cases hval : so ≠ [] ∧ sortStr so ≠ sortStr (nonReservedKeys doc.content)
    · rw [if_pos hval]
      rfl
    · rw [if_neg hval]
      have hc : (if doc.prepared then doc else ConcreteTexDoc.prepare_doc doc).content =
          doc.content := by
        by_cases hprep : doc.prepared
        · rw [if_pos hprep]
        · rw [if_neg hprep]
          rfl
      rw [hc]
      rcases hET : emitText doc.content
          (if so ≠ [] then so else doc.content.map Prod.fst) with e | t
      · rfl
      · exfalso
        obtain ⟨hkp, hke⟩ := emitText_ok_hasKeys doc.content _ t hET
        rcases hmiss with hm | hm
        · rw [hm] at hkp
          simp at hkp
        · rw [hm] at hke
          simp at hke

/-- Witness for C7 on a fresh unprepared store with both reserved sections
absent and the default order. -/
theorem c7_witness :
    (ConcreteTexDoc.emit_doc (mkDoc "w7" "d" "T" "b" false) [] =
      (emitText (ConcreteTexDoc.prepare_doc (mkDoc "w7" "d" "T" "b" false)).content
        (if ([] : List String) ≠ [] then [] else
          (ConcreteTexDoc.prepare_doc (mkDoc "w7" "d" "T" "b" false)).content.map Prod.fst)).map
        (fun t => (t, ConcreteTexDoc.prepare_doc (mkDoc "w7" "d" "T" "b" false)))) ∧
    exceptIsOk (ConcreteTexDoc.emit_doc (mkDoc "w7" "d" "T" "b" false) []) = false :=
  ⟨(c7_prepare_and_reserved (mkDoc "w7" "d" "T" "b" false) []).1 rfl (Or.inl rfl),
   (c7_prepare_and_reserved (mkDoc "w7" "d" "T" "b" false) []).2 (Or.inl rfl)⟩

/- ### Claim C9: save_content then load_content -/

/-- Store for the C9 failing input: sections inserted in the order b sec,
a sec, against alphabetical order. -/
def c9demo : ConcreteTexDoc :=
  ((mkDoc "out" "doc" "T" "bib" false).add_line "x" "b sec" "").add_line "y" "a sec" ""

/-- C9: saving and loading on a fresh store of the same identity does NOT
reproduce the content mapping: the modelled dump (PyYAML with its default
sort_keys=True) writes mapping keys sorted, so the loaded store holds the
sections in alphabetical rather than insertion order.  The line lists
themselves survive unchanged. -/
theorem c9_save_load_reorders :
    (ConcreteTexDoc.load_content (mkDoc "out" "doc" "T" "bib" false)
        (ConcreteTexDoc.save_content c9demo)).content =
      [("a sec", [("", ["y"])]), ("b sec", [("", ["x"])])] ∧
    c9demo.content = [("b sec", [("", ["x"])]), ("a sec", [("", ["y"])])] ∧
    (ConcreteTexDoc.load_content (mkDoc "out" "doc" "T" "bib" false)
        (ConcreteTexDoc.save_content c9demo)).content ≠ c9demo.content :=
  ⟨by decide, by decide, by decide⟩

/- ### Claim C10: emission is a fixpoint after the first call -/

instance {ε α : Type} [DecidableEq ε] [DecidableEq α] : DecidableEq (Except ε α) :=
  fun a b =>
    match a, b with
    | .error e1, .error e2 =>
      if h : e1 = e2 then isTrue (by rw [h]) else isFalse (by intro hc; cases hc; exact h rfl)
    | .error _, .ok _ => isFalse (by intro hc; cases hc)
    | .ok a1, .ok a2 =>
      if h : a1 = a2 then isTrue (by rw [h]) else isFalse (by intro hc; cases hc; exact h rfl)
    | .ok _, .error _ => isFalse (by intro hc; cases hc)

theorem keys_contentAdd (c : Content) (sec sub line : String) :
    (contentAdd c sec sub line).map Prod.fst =
      if sec ∈ c.map Prod.fst then c.map Prod.fst else c.map Prod.fst ++ [sec] := by
  induction c with
  | nil => simp [contentAdd]
  | cons p c ih =>
    obtain ⟨k1, subs⟩ := p
    by_cases h : k1 = sec
    · subst h
      simp [contentAdd]
    · have hs : ¬ sec = k1 := fun hh => h hh.symm
      by_cases hmem : sec ∈ c.map Prod.fst
      · simp [contentAdd, h, hs, hmem, ih, List.mem_cons]
      · simp [contentAdd, h, hs, hmem, ih, List.mem_cons]

theorem nonReservedKeys_contentAdd_reserved (c : Content) (sec sub line : String)
    (h : sec ∈ standard_sections) :
    nonReservedKeys (contentAdd c sec sub line) = nonReservedKeys c := by
  unfold nonReservedKeys
  rw [keys_contentAdd]
  by_cases hmem : sec ∈ c.map Prod.fst
  · rw [if_pos hmem]
  · rw [if_neg hmem, List.filter_append]
    have h1 : List.filter (fun s => decide (s ∉ standard_sections)) [sec] = [] := by
      simp [h]
    rw [h1, List.append_nil]

theorem nonReservedKeys_add_line_preamble (d : ConcreteTexDoc) (l : String) :
    nonReservedKeys (d.add_line l "preamble" "").content = nonReservedKeys d.content :=
  nonReservedKeys_contentAdd_reserved d.content "preamble" "" l (by decide)

theorem nonReservedKeys_add_line_endings (d : ConcreteTexDoc) (l : String) :
    nonReservedKeys (d.add_line l "endings" "").content = nonReservedKeys d.content :=
  nonReservedKeys_contentAdd_reserved d.content "endings" "" l (by decide)

theorem stdPrep_prepared (d : ConcreteTexDoc) :
    (StandardTexDoc.prepare_doc d).prepared = true := by
  by_cases htoc : d.table_of_contents
  · simp only [StandardTexDoc.prepare_doc, if_pos htoc]
    rfl
  · simp only [StandardTexDoc.prepare_doc, if_neg htoc]
    rfl

theorem stdPrep_nonReservedKeys (d : ConcreteTexDoc) :
    nonReservedKeys (StandardTexDoc.prepare_doc d).content = nonReservedKeys d.content := by
  by_cases htoc : d.table_of_contents
  · simp only [StandardTexDoc.prepare_doc, if_pos htoc, standard_packages,
      List.foldl_cons, List.foldl_nil, nonReservedKeys_add_line_preamble,
      nonReservedKeys_add_line_endings]
  · simp only [StandardTexDoc.prepare_doc, if_neg htoc, standard_packages,
      List.foldl_cons, List.foldl_nil, nonReservedKeys_add_line_preamble,
      nonReservedKeys_add_line_endings]

theorem emit_core_fixpoint (prep : ConcreteTexDoc → ConcreteTexDoc)
    (hkeys : ∀ d, nonReservedKeys (prep d).content = nonReservedKeys d.content)
    (hprep : ∀ d, (prep d).prepared = true)
    (doc : ConcreteTexDoc) (so : List String) (t : String) (d2 : ConcreteTexDoc)
    (h : emit_core prep doc so = .ok (t, d2)) :
    emit_core prep d2 so = .ok (t, d2) := by
  simp only [emit_core] at h ⊢
  by_cases hval : so ≠ [] ∧ sortStr so ≠ sortStr (nonReservedKeys doc.content)
  · rw [if_pos hval] at h
    simp at h
  · rw [if_neg hval] at h
    set dd := if doc.prepared then doc else prep doc with hdd
    rcases hET : emitText dd.content (if so ≠ [] then so else dd.content.map Prod.fst) with e | t2
    · rw [hET] at h
      simp at h
    · rw [hET] at h
      simp only [Except.ok.injEq, Prod.mk.injEq] at h
      obtain ⟨ht, hd⟩ := h
      subst hd
      subst ht
      have hddp : dd.prepared = true := by
        rw [hdd]
        by_cases hp : doc.prepared
        · rw [if_pos hp]
          exact hp
        · rw [if_neg hp]
          exact hprep doc
      have hddk : nonReservedKeys dd.content = nonReservedKeys doc.content := by
        rw [hdd]
        by_cases hp : doc.prepared
        · rw [if_pos hp]
        · rw [if_neg hp]
          exact hkeys doc
      rw [if_neg (fun hcon => hval ⟨hcon.1, hddk ▸ hcon.2⟩)]
      rw [hddp]
      show (match emitText dd.content (if so ≠ [] then so else dd.content.map Prod.fst) with
        | Except.error e => (Except.error e : Except String (String × ConcreteTexDoc))
        | Except.ok t => Except.ok (t, dd)) = Except.ok (t2, dd)
      rw [hET]

/-- C10: for every store and fixed section order, a successful emit_doc is a
fixpoint: emitting again from the returned store yields the same text and
the same store, for the base ConcreteTexDoc and for StandardTexDoc, whose
prepare_doc injects the boilerplate at most once thanks to the prepared
flag. -/
theorem c10_emit_idempotent :
    (∀ (doc : ConcreteTexDoc) (so : List String) (t : String) (d2 : ConcreteTexDoc),
      ConcreteTexDoc.emit_doc doc so = .ok (t, d2) →
        ConcreteTexDoc.emit_doc d2 so = .ok (t, d2)) ∧
    (∀ (doc : ConcreteTexDoc) (so : List String) (t : String) (d2 : ConcreteTexDoc),
      StandardTexDoc.emit_doc doc so = .ok (t, d2) →
        StandardTexDoc.emit_doc d2 so = .ok (t, d2)) := by
  constructor
  · intro doc so t d2 h
    exact emit_core_fixpoint ConcreteTexDoc.prepare_doc (fun d => rfl) (fun d => rfl)
      doc so t d2 h
  · intro doc so t d2 h
    exact emit_core_fixpoint StandardTexDoc.prepare_doc stdPrep_nonReservedKeys
      stdPrep_prepared doc so t d2 h

/-- The prepared standard document of the C10 witness. -/
def c10demoPrepped : ConcreteTexDoc :=
  StandardTexDoc.prepare_doc (mkDoc "w10" "d" "T" "b" false)

/-- The text the first standard emission produces in the C10 witness. -/
def c10demoText : String :=
  match StandardTexDoc.emit_doc (mkDoc "w10" "d" "T" "b" false) [] with
  | .ok p => p.1
  | .error _ => ""

set_option maxRecDepth 8192 in
/-- Witness for C10: after one successful standard emission, emitting again
returns the same text and leaves the store unchanged. -/
theorem c10_witness :
    StandardTexDoc.emit_doc c10demoPrepped [] = .ok (c10demoText, c10demoPrepped) :=
  c10_emit_idempotent.2 (mkDoc "w10" "d" "T" "b" false) [] c10demoText c10demoPrepped (by decide)
